import Mathlib

/-!
Verification of the teamide database core (pkg/db/service.go and
pkg/db/task/import.go) against its natural-language specification.

Strings manipulated byte-wise by the Go code (`sortName` slices and
measures byte lengths) are modelled as `List Char`; for the ASCII
identifiers involved a byte corresponds to a character.  Go maps whose
keys are strings are modelled as association lists with
replace-or-append update, which matches Go map update/lookup semantics.
A Go function that can panic is modelled with an `Option`/`Except`
result where `none`/`error` marks the panic.
-/

namespace Teamide

/-- ASCII white space, as trimmed by Go `strings.TrimSpace` (the inputs
of interest are ASCII identifiers). -/
def isGoSpace (c : Char) : Bool :=
  c = ' ' || c = '\t' || c = '\n' || c = '\x0b' || c = '\x0c' || c = '\r'

/-- Model of `strings.TrimSpace`: drop white space from both ends. -/
def goTrimSpace (l : List Char) : List Char :=
  ((l.dropWhile isGoSpace).reverse.dropWhile isGoSpace).reverse

/-- Join character-list segments with a single underscore (used only to
state theorems about `sortName`; the source builds the same shape by
string concatenation). -/
def glueUnd : List (List Char) → List Char
  | [] => []
  | [t] => t
  | t :: ts => t ++ '_' :: glueUnd ts

/-- The `for i, s := range ss` loop of `sortName` (service.go:815-832).
`res` is the accumulator; the result is `none` where the Go code panics:
taking `s[0:rSize-1]` with `rSize == 0` is a slice-bounds violation.
The Nat subtraction `s.length - 1` agrees with Go's `len(s)-1` in every
comparison the code makes (for `len(s) = 0` both make the first branch
true). -/
def sortLoop (rSize size : Nat) : List (List Char) → List Char → Option (List Char)
  | [], res => some res
  | [s], res =>
    if size ≤ res.length then some res
    else if s.length ≤ rSize then some (res ++ s)
    else some (res ++ s.take rSize)
  | s :: s2 :: rest, res =>
    if size ≤ res.length then some res
    else if s.length - 1 ≤ rSize then sortLoop rSize size (s2 :: rest) (res ++ s ++ ['_'])
    else if rSize = 0 then none
    else sortLoop rSize size (s2 :: rest) (res ++ s.take (rSize - 1) ++ ['_'])

/-- Embedding of `sortName` (service.go:797-837).  `none` marks a runtime panic of the
Go code: division by zero when every underscore segment trims to empty
(`size / len(names)` with `len(names) == 0`), or the slice-bounds
violation inside the loop. -/
def sortName (name : List Char) (size : Nat) : Option (List Char) :=
  let nm := goTrimSpace name
  if nm.length ≤ size then some nm
  else if nm.contains '_' then
    let names := ((nm.splitOn '_').map goTrimSpace).filter (fun t => !t.isEmpty)
    if names.length = 0 then none
    else sortLoop (size / names.length) size (nm.splitOn '_') []
  else some (nm.take size)

/-! ## Schema diff compiler (Service.TableUpdateSql, service.go:241-350)

The dialect adapter (`github.com/team-ide/go-dialect`) is an external
collaborator consumed as "given a schema operation, produce SQL text";
the compiler itself only decides which operations are emitted and in
what order.  Each dialect invocation of the source is therefore
represented by the operation it requests, in emission order. -/

/-- The fields of `dialect.ColumnModel` that the compiler reads or
writes (name, primary-key flag, the positional `ColumnAfterColumn`
hint) plus representative payload fields carried through to the
dialect. -/
structure ColumnModel where
  columnName : String
  columnDataType : String := ""
  columnComment : String := ""
  columnDefault : String := ""
  primaryKey : Bool := false
  columnAfterColumn : String := ""
deriving DecidableEq, Repr

/-- The fields of `dialect.IndexModel` that `TableUpdateSql` compares. -/
structure IndexModel where
  indexName : String := ""
  indexType : String := ""
  indexComment : String := ""
  columnNames : List String := []
deriving DecidableEq, Repr

/-- Embedding of `UpdateTableColumn` (service.go:230-234): the new column definition,
an optional old counterpart and a deleted flag. -/
structure UpdateTableColumn where
  column : ColumnModel
  oldColumn : Option ColumnModel := none
  deleted : Bool := false
deriving DecidableEq, Repr

/-- Embedding of `UpdateTableIndex` (service.go:235-239). -/
structure UpdateTableIndex where
  index : IndexModel
  oldIndex : Option IndexModel := none
  deleted : Bool := false
deriving DecidableEq, Repr

/-- Embedding of `UpdateTableParam` (service.go:223-228). -/
structure UpdateTableParam where
  tableComment : String := ""
  oldTableComment : String := ""
  columnList : List UpdateTableColumn := []
  indexList : List UpdateTableIndex := []
deriving DecidableEq, Repr

/-- One schema operation requested from the dialect adapter by
`TableUpdateSql`, in the order the source appends the adapter's
output. -/
inductive DdlOp where
  | columnDelete (columnName : String)
  | columnAdd (column : ColumnModel)
  | columnUpdate (oldColumn newColumn : ColumnModel)
  | primaryKeyDelete
  | primaryKeyAdd (keys : List String)
  | indexDelete (indexName : String)
  | indexAdd (index : IndexModel)
deriving DecidableEq, Repr

/-- First loop of `TableUpdateSql` (service.go:242-248): every column
after the first gets its `ColumnAfterColumn` set to the previous
column's name. -/
def setAfterColumns : Option String → List UpdateTableColumn → List UpdateTableColumn
  | _, [] => []
  | prev, c :: rest =>
    let c' := match prev with
      | none => c
      | some n => { c with column := { c.column with columnAfterColumn := n } }
    c' :: setAfterColumns (some c'.column.columnName) rest

/-- Names of the columns whose new definition carries the primary-key
flag (service.go:254-256); deleted entries contribute as well, exactly
as in the source. -/
def newPrimaryKeys (cols : List UpdateTableColumn) : List String :=
  (cols.filter (fun c => c.column.primaryKey)).map (fun c => c.column.columnName)

/-- Names of the old columns carrying the primary-key flag
(service.go:257-261). -/
def oldPrimaryKeys (cols : List UpdateTableColumn) : List String :=
  cols.filterMap (fun c =>
    match c.oldColumn with
    | some o => if o.primaryKey then some o.columnName else none
    | none => none)

/-- Per-column emission of `TableUpdateSql` (service.go:262-282):
deleted-with-old requests a drop, no-old requests an add, otherwise an
update of old to new. -/
def columnEntryOps (c : UpdateTableColumn) : List DdlOp :=
  if c.deleted then
    match c.oldColumn with
    | some o => [.columnDelete o.columnName]
    | none => []
  else
    match c.oldColumn with
    | none => [.columnAdd c.column]
    | some o => [.columnUpdate o c.column]

/-- The column loop of `TableUpdateSql`, in input order. -/
def columnOps (cols : List UpdateTableColumn) : List DdlOp :=
  cols.flatMap columnEntryOps

/-- The double subset check of service.go:285-297: a primary-key change
is flagged when some old key is missing from the new keys or some new
key is missing from the old keys (`dialect.StringsIndex(...) < 0` is
non-membership). -/
def pkChanged (oldKeys newKeys : List String) : Bool :=
  oldKeys.any (fun k => !(newKeys.contains k)) ||
    newKeys.any (fun k => !(oldKeys.contains k))

/-- Primary-key emission of service.go:298-313: on a detected change,
a drop when an old key exists, then an add when a new key exists. -/
def pkOps (oldKeys newKeys : List String) : List DdlOp :=
  if pkChanged oldKeys newKeys then
    (if 0 < oldKeys.length then [.primaryKeyDelete] else []) ++
      (if 0 < newKeys.length then [.primaryKeyAdd newKeys] else [])
  else []

/-- The four-way comparison of service.go:332-335: name, type, comment,
and the comma-joined ordered column-name lists. -/
def indexDiffers (n o : IndexModel) : Bool :=
  n.indexName != o.indexName || n.indexType != o.indexType ||
    n.indexComment != o.indexComment ||
    String.intercalate "," n.columnNames != String.intercalate "," o.columnNames

/-- Per-index emission of `TableUpdateSql` (service.go:315-348). -/
def indexEntryOps (ix : UpdateTableIndex) : List DdlOp :=
  if ix.deleted then
    match ix.oldIndex with
    | some o => [.indexDelete o.indexName]
    | none => []
  else
    match ix.oldIndex with
    | none => [.indexAdd ix.index]
    | some o =>
      if indexDiffers ix.index o then [.indexDelete o.indexName, .indexAdd ix.index]
      else []

/-- The index loop of `TableUpdateSql`, in input order. -/
def indexOps (idxs : List UpdateTableIndex) : List DdlOp :=
  idxs.flatMap indexEntryOps

/-- Embedding of `Service.TableUpdateSql` (service.go:241-350) at the operation
level: positional hints are fixed up, then column operations, then the
primary-key block, then index operations. -/
def tableUpdateOps (p : UpdateTableParam) : List DdlOp :=
  let cols := setAfterColumns none p.columnList
  columnOps cols ++ pkOps (oldPrimaryKeys cols) (newPrimaryKeys cols) ++ indexOps p.indexList

/-- Classifier: primary-key operations. -/
def DdlOp.isPk : DdlOp → Bool
  | .primaryKeyDelete => true
  | .primaryKeyAdd _ => true
  | _ => false

/-- Classifier: the primary-key drop operation. -/
def DdlOp.isPkDelete : DdlOp → Bool
  | .primaryKeyDelete => true
  | _ => false

/-- Classifier: the primary-key add operation. -/
def DdlOp.isPkAdd : DdlOp → Bool
  | .primaryKeyAdd _ => true
  | _ => false

/-- Classifier: index operations. -/
def DdlOp.isIndex : DdlOp → Bool
  | .indexDelete _ => true
  | .indexAdd _ => true
  | _ => false

/-- Per-index-entry operations as the specification words them: deleted
with an old index is a drop, no old index is an add, otherwise any
difference in name, type, comment or the joined column-name list is a
drop of the old immediately followed by an add of the new, and no
difference means nothing. -/
def indexEntryOpsSpec (ix : UpdateTableIndex) : List DdlOp :=
  if ix.deleted then
    match ix.oldIndex with
    | some o => [.indexDelete o.indexName]
    | none => []
  else
    match ix.oldIndex with
    | none => [.indexAdd ix.index]
    | some o =>
      if ix.index.indexName ≠ o.indexName ∨ ix.index.indexType ≠ o.indexType ∨
          ix.index.indexComment ≠ o.indexComment ∨
          String.intercalate "," ix.index.columnNames ≠ String.intercalate "," o.columnNames
      then [.indexDelete o.indexName, .indexAdd ix.index]
      else []

/-! ## Result projector (Service.TableData row loop, service.go:491-519) -/

/-- ASCII lowercase of one character (`strings.ToLower` on the ASCII
identifiers involved). -/
def lowChar (c : Char) : Char :=
  if 'A' ≤ c ∧ c ≤ 'Z' then Char.ofNat (c.toNat + 32) else c

/-- ASCII lowercase of a string. -/
def lowStr (s : String) : String := ⟨s.data.map lowChar⟩

/-- A value held in a raw query row.  A `time.Time` carries its
`IsZero` flag and its millisecond timestamp (what `util.GetTimeTime`
returns); a float carries its `%f` rendering, an `int64` its integer,
and any other driver value its `fmt.Sprint` rendering. -/
inductive GoValue where
  | vNull
  | vTime (isZero : Bool) (millis : Int)
  | vFloat (fmtF : String)
  | vInt (i : Int)
  | vStr (s : String)
  | vOther (sprint : String)
deriving DecidableEq, Repr

/-- The type switch of service.go:504-517: zero time to null, non-zero
time to its numeric timestamp, float to its `%f` string, `int64` to its
decimal string, anything else to its `fmt.Sprint` string.  (The source
reaches this switch only for non-nil values.) -/
def normalizeValue : GoValue → GoValue
  | .vNull => .vNull
  | .vTime true _ => .vNull
  | .vTime false m => .vInt m
  | .vFloat f => .vStr f
  | .vInt i => .vStr (toString i)
  | .vStr s => .vStr s
  | .vOther r => .vStr r

/-- The per-row loop of `Service.TableData` (service.go:495-519) over
one row, given the already-lowercased requested column names: nil
values are skipped (`continue`) and stay in the row, entries whose
lowercased key is not among the requested names are deleted, the rest
are normalized in place. -/
def projectLoop (names : List String) : List (String × GoValue) → List (String × GoValue)
  | [] => []
  | (name, v) :: rest =>
    if v = .vNull then (name, v) :: projectLoop names rest
    else if !(names.contains (lowStr name)) then projectLoop names rest
    else (name, normalizeValue v) :: projectLoop names rest

/-- Row projection of `Service.TableData`: the requested column names
are lowercased (service.go:491-494) and each row entry is filtered and
normalized. -/
def projectRow (columnNames : List String) (row : List (String × GoValue)) :
    List (String × GoValue) :=
  projectLoop (columnNames.map lowStr) row

/-- Per-entry projection as the (amended) specification words it: a
null value is kept untouched, a non-null value under a requested
(case-insensitively matched) column name is normalized in place, and a
non-null value under an unknown name is removed. -/
def projectEntrySpec (names : List String) : String × GoValue → Option (String × GoValue)
  | (name, v) =>
    if v = GoValue.vNull then some (name, v)
    else if (names.map lowStr).contains (lowStr name) then some (name, normalizeValue v)
    else none

/-! ## Import task engine (pkg/db/task/import.go)

The goja scripting engine and the database writer are external
collaborators; they enter the model as an `eval` function on the
scripting scope and a `flush` function for one batched insert.  The
list of batches handed to the batch writer is returned alongside the
task state so that the produced rows are observable. -/

/-- A scripting / JSON value of the import strategy data. -/
inductive JsValue where
  | vNull
  | vBool (b : Bool)
  | vNum (n : Int)
  | vStr (s : String)
deriving DecidableEq, Repr

/-- Association-list update with Go map semantics: replace the value of
an existing key, otherwise append the binding. -/
def setKV {α : Type} (k : String) (v : α) : List (String × α) → List (String × α)
  | [] => [(k, v)]
  | e :: rest => if e.1 == k then (k, v) :: rest else e :: setKV k v rest

/-- Association-list lookup. -/
def lookupKV {α : Type} (m : List (String × α)) (k : String) : Option α :=
  (m.find? (fun e => e.1 == k)).map (·.2)

/-- One generated data row (Go `map[string]interface{}`). -/
def JsRow := List (String × JsValue)
deriving instance DecidableEq, Repr for JsRow

/-- The scripting scope of the goja VM. -/
def JsEnv := List (String × JsValue)
deriving instance DecidableEq, Repr for JsEnv

/-- Embedding of `db.TableColumnModel` as consumed by the import worker (only the
column name is read). -/
structure TableColumnModel where
  name : String
deriving DecidableEq, Repr

/-- Embedding of `ImportTask` (import.go:43-63).  Times are millisecond timestamps
(`util.GetTimeTime` of the Go `time.Time` fields). -/
structure ImportTask where
  database : String := ""
  table : String := ""
  columnList : List TableColumnModel := []
  key : String := ""
  importType : String := ""
  strategyDataList : List JsRow := []
  batchNumber : Int := 0
  dataCount : Int := 0
  readyDataCount : Int := 0
  successCount : Int := 0
  errorCount : Int := 0
  isEnd : Bool := false
  startTime : Int := 0
  endTime : Int := 0
  error : String := ""
  useTime : Int := 0
  isStop : Bool := false
deriving DecidableEq, Repr

/-- Evaluation of one expression string in the current scope
(`vm.RunString`), supplied by the external scripting engine. -/
def EvalFn := JsEnv → String → Except String JsValue

/-- One batched insert (`db.DataListInsertSql` + `Service.Execs`),
supplied by the external database layer. -/
def FlushFn := List JsRow → Except String Unit

/-- Embedding of `ImportTask.doImportData` (import.go:200-218): an empty batch does
nothing; otherwise the batch is handed to the database layer once.  The
first component records the batch handed over (the observable insert
trace). -/
def doImportData (flush : FlushFn) (dataList : List JsRow) :
    List (List JsRow) × Except String Unit :=
  if dataList.isEmpty then ([], .ok ())
  else ([dataList], flush dataList)

/-- Result of the per-row column loop. -/
inductive RowStep where
  | stopped
  | failed (e : String)
  | done (env : JsEnv) (data : JsRow)
deriving Repr

/-- The inner column loop of `doStrategyData` (import.go:146-172): for
each target column, take the configured value; a non-empty string value
is evaluated as an expression in the current scope; the resulting value
is stored in the row and set into the scope (visible to later columns).
The cooperative stop flag is checked before each column. -/
def rowLoop (eval : EvalFn) (stop : Bool) (importData : JsRow) :
    List TableColumnModel → JsEnv → JsRow → RowStep
  | [], env, data => .done env data
  | c :: rest, env, data =>
    if stop then .stopped
    else
      match lookupKV importData c.name with
      | none => rowLoop eval stop importData rest env data
      | some value =>
        match value with
        | .vStr s =>
          if s ≠ "" then
            match eval env s with
            | .error e => .failed e
            | .ok sv =>
              rowLoop eval stop importData rest (setKV c.name sv env) (setKV c.name sv data)
          else
            rowLoop eval stop importData rest (setKV c.name value env) (setKV c.name value data)
        | v =>
          rowLoop eval stop importData rest (setKV c.name v env) (setKV c.name v data)

/-- The per-index loop of `doStrategyData` (import.go:139-196).  `k` is
the number of rows still to generate and `i` the current row index; the
scope `env` persists from one generated row to the next (the source
creates a single goja VM per strategy entry).  Returns the updated
task counters, the trace of batches handed to the insert path, and the
terminal result. -/
def dataLoop (eval : EvalFn) (flush : FlushFn) (stop : Bool) (importData : JsRow)
    (cols : List TableColumnModel) (bn : Int) :
    Nat → Int → JsEnv → List JsRow → ImportTask →
    ImportTask × List (List JsRow) × Except String Unit
  | 0, _, _, dl, st =>
    match doImportData flush dl with
    | (tr, .error e) => ({ st with errorCount := st.errorCount + dl.length }, tr, .error e)
    | (tr, .ok _) => ({ st with successCount := st.successCount + dl.length }, tr, .ok ())
  | k + 1, i, env, dl, st =>
    let env1 := setKV "_$index" (.vNum i) env
    match rowLoop eval stop importData cols env1 [] with
    | .stopped => (st, [], .ok ())
    | .failed e => (st, [], .error e)
    | .done env2 data =>
      let st1 := { st with readyDataCount := st.readyDataCount + 1 }
      let dl1 := dl ++ [data]
      if bn ≤ (dl1.length : Int) then
        if stop then (st1, [], .ok ())
        else
          match doImportData flush dl1 with
          | (tr, .error e) =>
            ({ st1 with errorCount := st1.errorCount + dl1.length }, tr, .error e)
          | (tr, .ok _) =>
            let st2 := { st1 with successCount := st1.successCount + dl1.length }
            let out := dataLoop eval flush stop importData cols bn k (i + 1) env2 [] st2
            (out.1, tr ++ out.2.1, out.2.2)
      else
        dataLoop eval flush stop importData cols bn k (i + 1) env2 dl1 st1

/-- The requested row count of one strategy entry as `doStrategyData`
reads it back (import.go:115; `doStrategy` has already stored a numeric
value under this key). -/
def importCountOf (importData : JsRow) : Int :=
  match lookupKV importData "_\x24importCount" with
  | some (.vNum n) => n
  | _ => 0

/-- Embedding of `ImportTask.doStrategyData` (import.go:114-198).  `baseCtx` is the
scripting context the goja VM is seeded with
(`javascript.GetContext()`); the VM (the scope) is created once here
and reused for every generated row of this strategy entry. -/
def doStrategyData (eval : EvalFn) (flush : FlushFn) (baseCtx : JsEnv) (st : ImportTask)
    (cols : List TableColumnModel) (importData : JsRow) :
    ImportTask × List (List JsRow) × Except String Unit :=
  let importCount := importCountOf importData
  if importCount ≤ 0 then (st, [], .ok ())
  else if st.isStop then (st, [], .ok ())
  else
    let bn := if st.batchNumber ≤ 0 then 10 else st.batchNumber
    dataLoop eval flush st.isStop importData cols bn importCount.toNat 0 baseCtx [] st

/-- First loop of `ImportTask.doStrategy` (import.go:90-100): the
requested count of each strategy entry is normalized (missing or
non-positive becomes 0), stored back into the entry, and summed into
`DataCount`. -/
def normalizeStrategyEntry (d : JsRow) : JsRow :=
  let c := importCountOf d
  let c := if c ≤ 0 then 0 else c
  setKV "_\x24importCount" (.vNum c) d

/-- Second loop of `ImportTask.doStrategy` (import.go:102-110):
strategy entries are processed in order, stopping at the cooperative
flag and propagating the first error. -/
def strategyLoop (eval : EvalFn) (flush : FlushFn) (baseCtx : JsEnv)
    (cols : List TableColumnModel) :
    List JsRow → ImportTask → ImportTask × List (List JsRow) × Except String Unit
  | [], st => (st, [], .ok ())
  | d :: rest, st =>
    if st.isStop then (st, [], .ok ())
    else
      match doStrategyData eval flush baseCtx st cols d with
      | (st1, tr, .error e) => (st1, tr, .error e)
      | (st1, tr, .ok _) =>
        let out := strategyLoop eval flush baseCtx cols rest st1
        (out.1, tr ++ out.2.1, out.2.2)

/-- Embedding of `ImportTask.doStrategy` (import.go:89-112). -/
def doStrategy (eval : EvalFn) (flush : FlushFn) (baseCtx : JsEnv) (st : ImportTask) :
    ImportTask × List (List JsRow) × Except String Unit :=
  let sdl := st.strategyDataList.map normalizeStrategyEntry
  let st1 := { st with strategyDataList := sdl,
                       dataCount := st.dataCount + (sdl.map importCountOf).sum }
  strategyLoop eval flush baseCtx st1.columnList sdl st1

/-- The body of `ImportTask.Start` (import.go:80-85): only an import of
type "strategy" does work; its error is raised as a panic. -/
def startBody (eval : EvalFn) (flush : FlushFn) (baseCtx : JsEnv) (st : ImportTask) :
    ImportTask × List (List JsRow) × Except String Unit :=
  if st.importType = "strategy" then doStrategy eval flush baseCtx st
  else (st, [], .ok ())

/-- Embedding of `ImportTask.Start` (import.go:68-87).  `t0`/`t1` are the wall-clock
millisecond readings at entry and at the deferred epilogue.  The
deferred function recovers the panic carrying the strategy error into
the `Error` field and always records end time, elapsed time and the
ended flag. -/
def start (eval : EvalFn) (flush : FlushFn) (baseCtx : JsEnv) (t0 t1 : Int)
    (st : ImportTask) : ImportTask × List (List JsRow) :=
  let body := startBody eval flush baseCtx { st with startTime := t0 }
  let st1 := match body.2.2 with
    | .error e => { body.1 with error := e }
    | .ok _ => body.1
  ({ st1 with endTime := t1, isEnd := true, useTime := t1 - t0 }, body.2.1)

/-- The process-wide registry `ImportTaskCache` (import.go:13-15). -/
def ImportTaskCache := List (String × ImportTask)

/-- Embedding of `StopImportTask` (import.go:27-33), exactly as written: the task is
looked up and, when present, its `Start` method is invoked (the source
calls `task.Start()`, not `task.Stop()`); the registry keeps the same
(mutated in place) task. -/
def stopImportTask (eval : EvalFn) (flush : FlushFn) (baseCtx : JsEnv) (t0 t1 : Int)
    (cache : ImportTaskCache) (taskKey : String) : ImportTaskCache :=
  match lookupKV cache taskKey with
  | none => cache
  | some t => setKV taskKey (start eval flush baseCtx t0 t1 t).1 cache

/-- Embedding of `ImportTask.Stop` (import.go:65-67): the cooperative cancellation
flag. -/
def ImportTask.stop (t : ImportTask) : ImportTask :=
  { t with isStop := true }

/-- Spec-modelled fresh-scope variant of the per-index loop: the
specification's "fresh per-row scripting scope seeded with the index
variable" — every generated row starts again from the base context
instead of inheriting the scope of the previous row.  Used only to
compare the source behaviour with the claimed one. -/
def dataLoopFresh (eval : EvalFn) (flush : FlushFn) (stop : Bool) (importData : JsRow)
    (cols : List TableColumnModel) (bn : Int) (baseCtx : JsEnv) :
    Nat → Int → List JsRow → ImportTask →
    ImportTask × List (List JsRow) × Except String Unit
  | 0, _, dl, st =>
    match doImportData flush dl with
    | (tr, .error e) => ({ st with errorCount := st.errorCount + dl.length }, tr, .error e)
    | (tr, .ok _) => ({ st with successCount := st.successCount + dl.length }, tr, .ok ())
  | k + 1, i, dl, st =>
    let env1 := setKV "_$index" (.vNum i) baseCtx
    match rowLoop eval stop importData cols env1 [] with
    | .stopped => (st, [], .ok ())
    | .failed e => (st, [], .error e)
    | .done _ data =>
      let st1 := { st with readyDataCount := st.readyDataCount + 1 }
      let dl1 := dl ++ [data]
      if bn ≤ (dl1.length : Int) then
        if stop then (st1, [], .ok ())
        else
          match doImportData flush dl1 with
          | (tr, .error e) =>
            ({ st1 with errorCount := st1.errorCount + dl1.length }, tr, .error e)
          | (tr, .ok _) =>
            let st2 := { st1 with successCount := st1.successCount + dl1.length }
            let out := dataLoopFresh eval flush stop importData cols bn baseCtx k (i + 1) [] st2
            (out.1, tr ++ out.2.1, out.2.2)
      else
        dataLoopFresh eval flush stop importData cols bn baseCtx k (i + 1) dl1 st1

/-- Spec-modelled fresh-scope variant of `doStrategyData` (claim
wording; compare `doStrategyData`). -/
def doStrategyDataFresh (eval : EvalFn) (flush : FlushFn) (baseCtx : JsEnv)
    (st : ImportTask) (cols : List TableColumnModel) (importData : JsRow) :
    ImportTask × List (List JsRow) × Except String Unit :=
  let importCount := importCountOf importData
  if importCount ≤ 0 then (st, [], .ok ())
  else if st.isStop then (st, [], .ok ())
  else
    let bn := if st.batchNumber ≤ 0 then 10 else st.batchNumber
    dataLoopFresh eval flush st.isStop importData cols bn baseCtx importCount.toNat 0 [] st

/-! ## Concrete instances used by counterexamples and witnesses -/

/-- A column named `a` that is a primary key both before and after. -/
def colA : UpdateTableColumn :=
  { column := { columnName := "a", primaryKey := true },
    oldColumn := some { columnName := "a", primaryKey := true } }

/-- A column named `b` that becomes a primary key (its old definition
was not part of the key): together with `colA` the new key set
`{a, b}` is a strict superset of the old key set `{a}`. -/
def colB : UpdateTableColumn :=
  { column := { columnName := "b", primaryKey := true },
    oldColumn := some { columnName := "b", primaryKey := false } }

/-- The table-update parameter of the C2 counterexample. -/
def paramSuperset : UpdateTableParam := { columnList := [colA, colB] }

/-- An unchanged column: new definition equal to the old one. -/
def colSame : ColumnModel := { columnName := "c", columnDataType := "int" }

/-- The table-update parameter of the C4 counterexample: one column,
unchanged, nothing deleted, no indexes. -/
def paramUnchanged : UpdateTableParam :=
  { columnList := [{ column := colSame, oldColumn := some colSame }] }

/-- A scripting engine that evaluates an expression as a variable
reference: the variable's value in the current scope, null when the
variable is absent (one legitimate behaviour of the external
engine). -/
def lookupEval : EvalFn := fun env s => .ok ((lookupKV env s).getD .vNull)

/-- A scripting engine that fails exactly when the row index variable
holds 3 and otherwise yields null. -/
def failAt3Eval : EvalFn := fun env _ =>
  match lookupKV env "_\x24index" with
  | some (.vNum 3) => .error "script error on row 3"
  | _ => .ok .vNull

/-- A database layer whose batched inserts always succeed. -/
def okFlush : FlushFn := fun _ => .ok ()

/-- Strategy columns of the C5 counterexample. -/
def colsC1C2 : List TableColumnModel := [{ name := "c1" }, { name := "c2" }]

/-- Strategy entry of the C5 counterexample: two rows; column `c1` is
the expression `c2` (a reference to a column set later in the same
row), column `c2` is the expression `_\x24index`. -/
def strategyTwoRows : JsRow :=
  [("_\x24importCount", .vNum 2), ("c1", .vStr "c2"), ("c2", .vStr "_\x24index")]

/-- Strategy entry of the C5 witness for the error case: five rows of
one expression column. -/
def strategyFiveRows : JsRow := [("_\x24importCount", .vNum 5), ("c1", .vStr "x")]

/-- A fresh import task with default batch number. -/
def freshTask : ImportTask := { batchNumber := 0 }

/-- The registered import task of the C1 demonstration: a strategy
run of one row of the literal column `a`. -/
def taskC1 : ImportTask :=
  { importType := "strategy",
    columnList := [{ name := "a" }],
    strategyDataList := [[("_\x24importCount", .vNum 1), ("a", .vNum 7)]],
    batchNumber := 0 }

/-- A strategy import task whose expression evaluation fails on row
index 3 of 5 (used with `failAt3Eval`). -/
def taskErr : ImportTask :=
  { importType := "strategy",
    columnList := [{ name := "c1" }],
    strategyDataList := [strategyFiveRows],
    batchNumber := 0 }

/-! ## Theorems: identifier namer (`sortName`) -/

theorem glueUnd_cons (t : List Char) (ts : List (List Char)) (h : ts ≠ []) :
    glueUnd (t :: ts) = t ++ '_' :: glueUnd ts := by
  cases ts with
  | nil => exact absurd rfl h
  | cons a l => rfl

theorem take_isPref {α : Type} (n : Nat) (l : List α) : l.take n <+: l :=
  ⟨l.drop n, List.take_append_drop n l⟩

/-- Loop invariant of `sortLoop`: whenever the loop returns, the part it
appended to the accumulator is a sequence of prefixes of the leading
segments, joined by underscores, possibly with one trailing
underscore. -/
theorem sortLoop_shape (rSize size : Nat) :
    ∀ (ss : List (List Char)) (res out : List Char),
      sortLoop rSize size ss res = some out →
      ∃ ts : List (List Char),
        List.Forall₂ (fun t s => t <+: s) ts (ss.take ts.length) ∧
          (out = res ++ glueUnd ts ∨ (ts ≠ [] ∧ out = res ++ glueUnd ts ++ ['_'])) := by
  intro ss
  induction ss with
  | nil =>
    intro res out h
    simp only [sortLoop, Option.some.injEq] at h
    exact ⟨[], by simp [List.Forall₂.nil], Or.inl (by simp [glueUnd, h.symm])⟩
  | cons s tail ih =>
    cases tail with
    | nil =>
      intro res out h
      simp only [sortLoop] at h
      split at h
      · exact ⟨[], by simp [List.Forall₂.nil],
          Or.inl (by simp [glueUnd, (Option.some.injEq _ _).mp h])⟩
      · split at h
        · refine ⟨[s], ?_, Or.inl ?_⟩
          · simp only [List.length_cons, List.length_nil, List.take_succ_cons, List.take_nil]
            exact List.Forall₂.cons (⟨[], List.append_nil s⟩ : s <+: s) List.Forall₂.nil
          · simp [glueUnd, (Option.some.injEq _ _).mp h]
        · refine ⟨[s.take rSize], ?_, Or.inl ?_⟩
          · simpa using List.Forall₂.cons (take_isPref rSize s) List.Forall₂.nil
          · simp [glueUnd, (Option.some.injEq _ _).mp h]
    | cons s2 rest =>
      intro res out h
      simp only [sortLoop] at h
      split at h
      · exact ⟨[], by simp [List.Forall₂.nil],
          Or.inl (by simp [glueUnd, (Option.some.injEq _ _).mp h])⟩
      · split at h
        · obtain ⟨ts', hf, hd⟩ := ih _ _ h
          refine ⟨s :: ts', ?_, ?_⟩
          · simpa [List.take_succ_cons] using
              List.Forall₂.cons (⟨[], List.append_nil s⟩ : s <+: s) hf
          · cases ts' with
            | nil =>
              rcases hd with hd | hd
              · exact Or.inr ⟨by simp, by simp [glueUnd] at hd ⊢; simp [hd]⟩
              · exact absurd rfl hd.1
            | cons a l =>
              rcases hd with hd | hd
              · refine Or.inl ?_
                rw [hd, glueUnd_cons s (a :: l) (by simp)]
                simp
              · refine Or.inr ⟨by simp, ?_⟩
                rw [hd.2, glueUnd_cons s (a :: l) (by simp)]
                simp
        · split at h
          · exact absurd h (by simp)
          · obtain ⟨ts', hf, hd⟩ := ih _ _ h
            refine ⟨s.take (rSize - 1) :: ts', ?_, ?_⟩
            · simpa [List.take_succ_cons] using
                List.Forall₂.cons (take_isPref (rSize - 1) s) hf
            · cases ts' with
              | nil =>
                rcases hd with hd | hd
                · exact Or.inr ⟨by simp, by simp [glueUnd] at hd ⊢; simp [hd]⟩
                · exact absurd rfl hd.1
              | cons a l =>
                rcases hd with hd | hd
                · refine Or.inl ?_
                  rw [hd, glueUnd_cons _ (a :: l) (by simp)]
                  simp
                · refine Or.inr ⟨by simp, ?_⟩
                  rw [hd.2, glueUnd_cons _ (a :: l) (by simp)]
                  simp

/-- C3, counterexample.  The claim fails twice on the source: a name
with leading white space and length within the limit is returned
trimmed, not unchanged (`" a"` with limit 5 becomes `"a"`), and an
underscore-delimited name over the limit can come back longer than the
limit (`"ab_cd_ef"` with limit 7 is returned whole, length 8, because
the per-segment budget 7/3 = 2 satisfies `rSize >= len(s)-1` for every
segment). -/
theorem sortName_claim_cex :
    (" a".toList.length ≤ 5 ∧ sortName " a".toList 5 = some "a".toList ∧
      "a".toList ≠ " a".toList)
    ∧ (7 < "ab_cd_ef".toList.length ∧ "ab_cd_ef".toList.contains '_' = true ∧
      sortName "ab_cd_ef".toList 7 = some "ab_cd_ef".toList ∧
      ∀ res, sortName "ab_cd_ef".toList 7 = some res → 7 < res.length) := by
  refine ⟨⟨by decide, by decide, by decide⟩, ⟨by decide, by decide, by decide, ?_⟩⟩
  intro res h
  have : res = "ab_cd_ef".toList := by
    have h2 : sortName "ab_cd_ef".toList 7 = some "ab_cd_ef".toList := by decide
    rw [h2, Option.some.injEq] at h
    exact h.symm
  rw [this]
  decide

/-- C3, amended.  `sortName` first trims white space; for a trimmed
name within the limit the trimmed form is returned unchanged; for an
underscore-delimited trimmed name over the limit, whenever the function
returns (it can panic, see `sortName_panic_inputs`), the result is a
sequence of prefixes of the leading underscore-segments in their
original order, joined by underscores (possibly with a trailing
underscore) — segment order is preserved, but the result length may
exceed the limit; a trimmed name without an underscore that is over the
limit is cut to its first `size` characters. -/
theorem sortName_amended :
    (∀ (name : List Char) (size : Nat), (goTrimSpace name).length ≤ size →
      sortName name size = some (goTrimSpace name))
    ∧ (∀ (name : List Char) (size : Nat) (res : List Char),
        size < (goTrimSpace name).length → (goTrimSpace name).contains '_' = true →
        sortName name size = some res →
        ∃ ts : List (List Char),
          List.Forall₂ (fun t s => t <+: s) ts
              (((goTrimSpace name).splitOn '_').take ts.length) ∧
            (res = glueUnd ts ∨ res = glueUnd ts ++ ['_']))
    ∧ (∀ (name : List Char) (size : Nat),
        size < (goTrimSpace name).length → (goTrimSpace name).contains '_' = false →
        sortName name size = some ((goTrimSpace name).take size)) := by
  refine ⟨?_, ?_, ?_⟩
  · intro name size h
    simp only [sortName]
    rw [if_pos h]
  · intro name size res h1 h2 h3
    simp only [sortName] at h3
    rw [if_neg (Nat.not_le.mpr h1), h2, if_pos rfl] at h3
    split at h3
    · exact absurd h3 (by simp)
    · obtain ⟨ts, hf, hd⟩ := sortLoop_shape _ _ _ _ _ h3
      refine ⟨ts, hf, ?_⟩
      rcases hd with hd | hd
      · exact Or.inl (by simpa using hd)
      · exact Or.inr (by simpa using hd.2)
  · intro name size h1 h2
    simp only [sortName]
    rw [if_neg (Nat.not_le.mpr h1), h2]
    simp

/-- C3, witness: the three parts of `sortName_amended` applied at
`" a"`/5, `"ab_cd_ef"`/7 and `"abcdefgh"`/4. -/
theorem sortName_amended_witness :
    ((goTrimSpace " a".toList).length ≤ 5 ∧
      sortName " a".toList 5 = some (goTrimSpace " a".toList))
    ∧ (4 < (goTrimSpace "ab_cd_ef".toList).length ∧
      (goTrimSpace "ab_cd_ef".toList).contains '_' = true ∧
      sortName "ab_cd_ef".toList 4 = some "ab_cd_".toList ∧
      ∃ ts : List (List Char),
        List.Forall₂ (fun t s => t <+: s) ts
            (((goTrimSpace "ab_cd_ef".toList).splitOn '_').take ts.length) ∧
          ("ab_cd_".toList = glueUnd ts ∨ "ab_cd_".toList = glueUnd ts ++ ['_']))
    ∧ (4 < (goTrimSpace "abcdefgh".toList).length ∧
      (goTrimSpace "abcdefgh".toList).contains '_' = false ∧
      sortName "abcdefgh".toList 4 = some ((goTrimSpace "abcdefgh".toList).take 4)) :=
  ⟨⟨by decide, sortName_amended.1 " a".toList 5 (by decide)⟩,
    ⟨by decide, by decide, by decide,
      sortName_amended.2.1 "ab_cd_ef".toList 4 "ab_cd_".toList (by decide) (by decide)
        (by decide)⟩,
    ⟨by decide, by decide, sortName_amended.2.2 "abcdefgh".toList 4 (by decide) (by decide)⟩⟩

/-- C10: `sortName` is not total.  With limit 3, the name `"_____"`
(five underscores, length 5) makes every underscore segment trim to
empty, so `len(names)` is 0 and `size / len(names)` divides by zero;
the name `"ab_c_d_e"` gives a per-segment budget of 3/4 = 0 and the Go
code slices `s[0:rSize-1]`, i.e. `"ab"[0:-1]`, a slice-bounds panic.
Both panics are modelled as `none`. -/
theorem sortName_panic_inputs :
    sortName "_____".toList 3 = none ∧ sortName "ab_c_d_e".toList 3 = none := by
  decide

/-! ## Theorems: schema diff compiler -/

theorem newPrimaryKeys_cons (c : UpdateTableColumn) (l : List UpdateTableColumn) :
    newPrimaryKeys (c :: l) =
      if c.column.primaryKey then c.column.columnName :: newPrimaryKeys l
      else newPrimaryKeys l := by
  simp only [newPrimaryKeys, List.filter_cons]
  split <;> simp

theorem oldPrimaryKeys_cons (c : UpdateTableColumn) (l : List UpdateTableColumn) :
    oldPrimaryKeys (c :: l) =
      (match c.oldColumn with
        | some o => if o.primaryKey then [o.columnName] else []
        | none => []) ++ oldPrimaryKeys l := by
  simp only [oldPrimaryKeys, List.filterMap_cons]
  rcases c.oldColumn with _ | o
  · simp
  · rcases h : o.primaryKey <;> simp [h]

theorem newPrimaryKeys_setAfter (prev : Option String) (l : List UpdateTableColumn) :
    newPrimaryKeys (setAfterColumns prev l) = newPrimaryKeys l := by
  induction l generalizing prev with
  | nil => rfl
  | cons c rest ih =>
    cases prev with
    | none =>
      simp only [setAfterColumns, newPrimaryKeys_cons]
      rw [ih]
    | some n =>
      simp only [setAfterColumns, newPrimaryKeys_cons]
      rw [ih]

theorem oldPrimaryKeys_setAfter (prev : Option String) (l : List UpdateTableColumn) :
    oldPrimaryKeys (setAfterColumns prev l) = oldPrimaryKeys l := by
  induction l generalizing prev with
  | nil => rfl
  | cons c rest ih =>
    cases prev with
    | none =>
      simp only [setAfterColumns, oldPrimaryKeys_cons]
      rw [ih]
    | some n =>
      simp only [setAfterColumns, oldPrimaryKeys_cons]
      rw [ih]

theorem columnEntryOps_ops (c : UpdateTableColumn) :
    ∀ op ∈ columnEntryOps c, op.isPk = false ∧ op.isIndex = false := by
  intro op hop
  rcases hd : c.deleted <;> rcases hoc : c.oldColumn with _ | o <;>
    simp [columnEntryOps, hd, hoc] at hop <;> subst hop <;> exact ⟨rfl, rfl⟩

theorem columnOps_ops (cols : List UpdateTableColumn) :
    ∀ op ∈ columnOps cols, op.isPk = false ∧ op.isIndex = false := by
  intro op hop
  rw [columnOps, List.mem_flatMap] at hop
  obtain ⟨c, _, hop⟩ := hop
  exact columnEntryOps_ops c op hop

theorem indexEntryOps_ops (ix : UpdateTableIndex) :
    ∀ op ∈ indexEntryOps ix, op.isPk = false ∧ op.isIndex = true := by
  intro op hop
  rcases hd : ix.deleted <;> rcases hoi : ix.oldIndex with _ | o <;>
    simp [indexEntryOps, hd, hoi] at hop
  · subst hop
    exact ⟨rfl, rfl⟩
  · rcases hdif : indexDiffers ix.index o <;> simp [hdif] at hop
    rcases hop with hop | hop <;> subst hop <;> exact ⟨rfl, rfl⟩
  · subst hop
    exact ⟨rfl, rfl⟩

theorem indexOps_ops (idxs : List UpdateTableIndex) :
    ∀ op ∈ indexOps idxs, op.isPk = false ∧ op.isIndex = true := by
  intro op hop
  rw [indexOps, List.mem_flatMap] at hop
  obtain ⟨ix, _, hop⟩ := hop
  exact indexEntryOps_ops ix op hop

theorem pkOps_ops (a b : List String) :
    ∀ op ∈ pkOps a b, op.isPk = true ∧ op.isIndex = false := by
  intro op hop
  rw [pkOps] at hop
  rcases hch : pkChanged a b <;> simp [hch] at hop
  rcases ha : a.length <;> rcases hb : b.length <;> simp [ha, hb] at hop <;>
    first
      | (subst hop; exact ⟨rfl, rfl⟩)
      | (rcases hop with hop | hop <;> subst hop <;> exact ⟨rfl, rfl⟩)

/-- The primary-key portion of the emitted operations is exactly the
primary-key block computed from the (position-fixup invariant) key
lists. -/
theorem tableUpdateOps_pkFilter (p : UpdateTableParam) :
    (tableUpdateOps p).filter (fun op => op.isPk) =
      pkOps (oldPrimaryKeys p.columnList) (newPrimaryKeys p.columnList) := by
  have h1 : (columnOps (setAfterColumns none p.columnList)).filter (fun op => op.isPk) = [] :=
    List.filter_eq_nil_iff.mpr (fun op h => by simp [(columnOps_ops _ op h).1])
  have h2 : (indexOps p.indexList).filter (fun op => op.isPk) = [] :=
    List.filter_eq_nil_iff.mpr (fun op h => by simp [(indexOps_ops _ op h).1])
  have h3 : ∀ a b : List String, (pkOps a b).filter (fun op => op.isPk) = pkOps a b :=
    fun a b => List.filter_eq_self.mpr (fun op h => by simp [(pkOps_ops _ _ op h).1])
  simp only [tableUpdateOps, List.filter_append]
  rw [h1, h2, h3, oldPrimaryKeys_setAfter, newPrimaryKeys_setAfter]
  simp

theorem contains_eq_false {l : List String} {a : String} :
    (l.contains a = false) ↔ a ∉ l := by
  rw [← Bool.not_eq_true]
  simp only [List.contains]
  rw [List.elem_iff]

theorem pkChanged_iff (a b : List String) :
    pkChanged a b = true ↔ ((∃ k ∈ a, k ∉ b) ∨ (∃ k ∈ b, k ∉ a)) := by
  simp only [pkChanged, Bool.or_eq_true, List.any_eq_true, Bool.not_eq_true',
    contains_eq_false]

/-- C7: primary-key statements are emitted exactly when the symmetric
difference of the old and the new key name sets is non-empty; on a
change, the drop (emitted only for a non-empty old set) precedes the
add (emitted only for a non-empty new set); two empty sets emit
nothing.  The equation describes the full primary-key portion of the
output of `tableUpdateOps`. -/
theorem pk_stmts_iff_symmdiff (p : UpdateTableParam) :
    (tableUpdateOps p).filter (fun op => op.isPk) =
      if (∃ k ∈ oldPrimaryKeys p.columnList, k ∉ newPrimaryKeys p.columnList) ∨
          (∃ k ∈ newPrimaryKeys p.columnList, k ∉ oldPrimaryKeys p.columnList)
      then
        (if oldPrimaryKeys p.columnList = [] then [] else [DdlOp.primaryKeyDelete]) ++
          (if newPrimaryKeys p.columnList = [] then []
            else [DdlOp.primaryKeyAdd (newPrimaryKeys p.columnList)])
      else [] := by
  rw [tableUpdateOps_pkFilter]
  by_cases hc : (∃ k ∈ oldPrimaryKeys p.columnList, k ∉ newPrimaryKeys p.columnList) ∨
      (∃ k ∈ newPrimaryKeys p.columnList, k ∉ oldPrimaryKeys p.columnList)
  · rw [if_pos hc, pkOps, if_pos ((pkChanged_iff _ _).mpr hc)]
    by_cases ha : oldPrimaryKeys p.columnList = []
    · rw [if_neg (by simp [ha]), if_pos ha]
      by_cases hb : newPrimaryKeys p.columnList = []
      · rw [if_neg (by simp [hb]), if_pos hb]
      · rw [if_pos (List.length_pos.mpr hb), if_neg hb]
    · rw [if_pos (List.length_pos.mpr ha), if_neg ha]
      by_cases hb : newPrimaryKeys p.columnList = []
      · rw [if_neg (by simp [hb]), if_pos hb]
      · rw [if_pos (List.length_pos.mpr hb), if_neg hb]
  · rw [if_neg hc, pkOps]
    rcases h : pkChanged (oldPrimaryKeys p.columnList) (newPrimaryKeys p.columnList)
    · simp
    · exact absurd ((pkChanged_iff _ _).mp h) hc

/-- C2, counterexample.  For `paramSuperset` the new key set `[a, b]`
is a strict superset of the old key set `[a]`, yet the compiler emits
one primary-key-drop statement: the claim's "no primary-key-drop
statement" fails whenever the old key set is non-empty. -/
theorem pk_superset_cex :
    (∀ k ∈ oldPrimaryKeys paramSuperset.columnList, k ∈ newPrimaryKeys paramSuperset.columnList)
    ∧ (∃ k ∈ newPrimaryKeys paramSuperset.columnList,
        k ∉ oldPrimaryKeys paramSuperset.columnList)
    ∧ (tableUpdateOps paramSuperset).countP (fun op => op.isPkDelete) = 1 := by
  refine ⟨by decide, ⟨"b", by decide, by decide⟩, by decide⟩

/-- C2, amended.  For a new primary-key set that is a strict superset
of the old one, exactly one primary-key-add statement is emitted, and a
primary-key-drop statement is emitted exactly when the old key set is
non-empty (the drop is not suppressed for supersets). -/
theorem pk_superset_amended (p : UpdateTableParam)
    (_hsub : ∀ k ∈ oldPrimaryKeys p.columnList, k ∈ newPrimaryKeys p.columnList)
    (hstrict : ∃ k ∈ newPrimaryKeys p.columnList, k ∉ oldPrimaryKeys p.columnList) :
    (tableUpdateOps p).countP (fun op => op.isPkAdd) = 1 ∧
      (tableUpdateOps p).countP (fun op => op.isPkDelete) =
        (if oldPrimaryKeys p.columnList = [] then 0 else 1) := by
  have hch : pkChanged (oldPrimaryKeys p.columnList) (newPrimaryKeys p.columnList) = true :=
    (pkChanged_iff _ _).mpr (Or.inr hstrict)
  obtain ⟨k, hk, _⟩ := hstrict
  have hb : newPrimaryKeys p.columnList ≠ [] := List.ne_nil_of_mem hk
  have ecount : ∀ q : DdlOp → Bool, (∀ op : DdlOp, (q op && op.isPk) = q op) →
      (tableUpdateOps p).countP q =
        (pkOps (oldPrimaryKeys p.columnList) (newPrimaryKeys p.columnList)).countP q := by
    intro q hq
    rw [← tableUpdateOps_pkFilter, List.countP_filter]
    congr 1
    funext op
    exact (hq op).symm
  constructor
  · rw [ecount (fun op => op.isPkAdd) (fun op => by cases op <;> rfl), pkOps, if_pos hch,
      if_pos (List.length_pos.mpr hb)]
    by_cases ho : oldPrimaryKeys p.columnList = []
    · rw [if_neg (by simp [ho])]
      simp [List.countP_cons, DdlOp.isPkAdd]
    · rw [if_pos (List.length_pos.mpr ho)]
      simp [List.countP_cons, DdlOp.isPkAdd, DdlOp.isPk]
  · rw [ecount (fun op => op.isPkDelete) (fun op => by cases op <;> rfl), pkOps, if_pos hch,
      if_pos (List.length_pos.mpr hb)]
    by_cases ho : oldPrimaryKeys p.columnList = []
    · rw [if_neg (by simp [ho]), if_pos ho]
      simp [List.countP_cons, DdlOp.isPkDelete]
    · rw [if_pos (List.length_pos.mpr ho), if_neg ho]
      simp [List.countP_cons, DdlOp.isPkDelete, DdlOp.isPk]

/-- C2, witness: `pk_superset_amended` applied to `paramSuperset`. -/
theorem pk_superset_amended_witness :
    ((∀ k ∈ oldPrimaryKeys paramSuperset.columnList,
        k ∈ newPrimaryKeys paramSuperset.columnList)
      ∧ (∃ k ∈ newPrimaryKeys paramSuperset.columnList,
          k ∉ oldPrimaryKeys paramSuperset.columnList))
    ∧ ((tableUpdateOps paramSuperset).countP (fun op => op.isPkAdd) = 1 ∧
        (tableUpdateOps paramSuperset).countP (fun op => op.isPkDelete) =
          (if oldPrimaryKeys paramSuperset.columnList = [] then 0 else 1)) :=
  ⟨⟨by decide, ⟨"b", by decide, by decide⟩⟩,
    pk_superset_amended paramSuperset (by decide) ⟨"b", by decide, by decide⟩⟩

theorem indexDiffers_iff (n o : IndexModel) :
    indexDiffers n o = true ↔
      (n.indexName ≠ o.indexName ∨ n.indexType ≠ o.indexType ∨
        n.indexComment ≠ o.indexComment ∨
        String.intercalate "," n.columnNames ≠ String.intercalate "," o.columnNames) := by
  simp [indexDiffers, or_assoc]

theorem indexEntryOps_eq_spec (ix : UpdateTableIndex) :
    indexEntryOps ix = indexEntryOpsSpec ix := by
  rw [indexEntryOps, indexEntryOpsSpec]
  rcases hd : ix.deleted <;> rcases hoi : ix.oldIndex with _ | o <;> simp [hd, hoi]
  by_cases hp : (ix.index.indexName ≠ o.indexName ∨ ix.index.indexType ≠ o.indexType ∨
      ix.index.indexComment ≠ o.indexComment ∨
      String.intercalate "," ix.index.columnNames ≠ String.intercalate "," o.columnNames)
  · rw [if_pos ((indexDiffers_iff _ _).mpr hp), if_pos hp]
  · rw [if_neg (fun ht => hp ((indexDiffers_iff _ _).mp ht)), if_neg hp]

/-- C8: the index portion of the emitted statements is exactly, in
input order, the per-entry sequence the specification describes:
deleted-with-old gives a drop, no-old gives an add, any difference in
name, type, comment or the comma-joined ordered column-name list gives
a drop of the old index immediately followed by an add of the new one,
and an unchanged index gives nothing. -/
theorem index_ops_match_spec (p : UpdateTableParam) :
    (tableUpdateOps p).filter (fun op => op.isIndex) =
      p.indexList.flatMap indexEntryOpsSpec := by
  have h1 : (columnOps (setAfterColumns none p.columnList)).filter
      (fun op => op.isIndex) = [] :=
    List.filter_eq_nil_iff.mpr (fun op h => by simp [(columnOps_ops _ op h).2])
  have h2 : ∀ a b : List String, (pkOps a b).filter (fun op => op.isIndex) = [] :=
    fun a b => List.filter_eq_nil_iff.mpr (fun op h => by simp [(pkOps_ops _ _ op h).2])
  have h3 : (indexOps p.indexList).filter (fun op => op.isIndex) = indexOps p.indexList :=
    List.filter_eq_self.mpr (fun op h => by simp [(indexOps_ops _ op h).2])
  have h4 : indexOps p.indexList = p.indexList.flatMap indexEntryOpsSpec := by
    rw [indexOps, funext indexEntryOps_eq_spec]
  simp only [tableUpdateOps, List.filter_append]
  rw [h1, h2, h3, h4]
  simp

theorem columnOps_cons (c : UpdateTableColumn) (l : List UpdateTableColumn) :
    columnOps (c :: l) = columnEntryOps c ++ columnOps l := by
  simp [columnOps]

theorem indexDiffers_self (n : IndexModel) : indexDiffers n n = false := by
  simp [indexDiffers]

theorem unchanged_indexOps (idxs : List UpdateTableIndex)
    (h : ∀ ix ∈ idxs, ix.oldIndex = some ix.index ∧ ix.deleted = false) :
    indexOps idxs = [] := by
  induction idxs with
  | nil => rfl
  | cons ix rest ih =>
    obtain ⟨h1, h2⟩ := h ix (List.mem_cons_self ix rest)
    have hr := ih (fun i hi => h i (List.mem_cons_of_mem _ hi))
    rw [indexOps, List.flatMap_cons]
    rw [indexOps] at hr
    rw [hr]
    simp [indexEntryOps, h1, h2, indexDiffers_self]

theorem pkChanged_self (a : List String) : pkChanged a a = false := by
  simp only [pkChanged, Bool.or_self]
  rw [List.any_eq_false]
  intro k hk
  simp only [Bool.not_eq_true', contains_eq_false]
  exact fun hn => hn hk

theorem setAfter_cons (prev : Option String) (c : UpdateTableColumn)
    (rest : List UpdateTableColumn) :
    ∃ c', setAfterColumns prev (c :: rest) =
        c' :: setAfterColumns (some c.column.columnName) rest ∧
      c'.oldColumn = c.oldColumn ∧ c'.deleted = c.deleted ∧
      c'.column.primaryKey = c.column.primaryKey ∧
      c'.column.columnName = c.column.columnName := by
  cases prev with
  | none => exact ⟨c, rfl, rfl, rfl, rfl, rfl⟩
  | some n =>
    exact ⟨{ c with column := { c.column with columnAfterColumn := n } },
      rfl, rfl, rfl, rfl, rfl⟩

/-- For a column list in which every entry keeps its old definition and
nothing is deleted, the column loop emits exactly one update operation
per column and the old and new primary-key name lists coincide. -/
theorem c4_columns (prev : Option String) (l : List UpdateTableColumn)
    (h : ∀ c ∈ l, c.oldColumn = some c.column ∧ c.deleted = false) :
    (columnOps (setAfterColumns prev l)).length = l.length ∧
      (∀ op ∈ columnOps (setAfterColumns prev l), ∃ o n, op = DdlOp.columnUpdate o n) ∧
      oldPrimaryKeys (setAfterColumns prev l) = newPrimaryKeys (setAfterColumns prev l) := by
  induction l generalizing prev with
  | nil => exact ⟨rfl, by simp [setAfterColumns, columnOps], rfl⟩
  | cons c rest ih =>
    obtain ⟨h1, h2⟩ := h c (List.mem_cons_self c rest)
    obtain ⟨ih1, ih2, ih3⟩ :=
      ih (some c.column.columnName) (fun x hx => h x (List.mem_cons_of_mem _ hx))
    obtain ⟨c', hs, e1, e2, e3, e4⟩ := setAfter_cons prev c rest
    have hentry : columnEntryOps c' = [DdlOp.columnUpdate c.column c'.column] := by
      simp [columnEntryOps, e1, e2, h1, h2]
    refine ⟨?_, ?_, ?_⟩
    · rw [hs, columnOps_cons, List.length_append, ih1, hentry]
      simp [Nat.add_comm]
    · intro op hop
      rw [hs, columnOps_cons, List.mem_append] at hop
      rcases hop with hop | hop
      · rw [hentry, List.mem_singleton] at hop
        exact ⟨c.column, c'.column, hop⟩
      · exact ih2 op hop
    · rw [hs, oldPrimaryKeys_cons, newPrimaryKeys_cons, e1, h1, e3, e4, ih3]
      rcases hp : c.column.primaryKey <;> simp [hp]

/-- C4, counterexample.  `paramUnchanged` satisfies the claim's
hypothesis (the single column's new definition equals its old one,
nothing is deleted, there are no indexes), yet `TableUpdateSql` does
not return an empty list: it requests one column-update from the
dialect for the unchanged column. -/
theorem unchanged_table_cex :
    (∀ c ∈ paramUnchanged.columnList, c.oldColumn = some c.column ∧ c.deleted = false)
    ∧ paramUnchanged.indexList = []
    ∧ tableUpdateOps paramUnchanged = [DdlOp.columnUpdate colSame colSame]
    ∧ tableUpdateOps paramUnchanged ≠ [] := by
  refine ⟨by decide, by decide, by decide, by decide⟩

/-- C4, amended.  For identical old/new definitions, no column-add,
column-drop, primary-key or index statement is emitted, but the column
loop still requests one column-update operation per column from the
dialect (the emitted list is empty only when the column list is);
whether the final SQL text is empty is up to the external dialect's
treatment of an identical update. -/
theorem unchanged_table_amended (p : UpdateTableParam)
    (hcols : ∀ c ∈ p.columnList, c.oldColumn = some c.column ∧ c.deleted = false)
    (hidx : ∀ ix ∈ p.indexList, ix.oldIndex = some ix.index ∧ ix.deleted = false) :
    (tableUpdateOps p).length = p.columnList.length ∧
      (∀ op ∈ tableUpdateOps p, ∃ o n, op = DdlOp.columnUpdate o n) := by
  obtain ⟨hl, hall, hpk⟩ := c4_columns none p.columnList hcols
  have hpkops : pkOps (oldPrimaryKeys (setAfterColumns none p.columnList))
      (newPrimaryKeys (setAfterColumns none p.columnList)) = [] := by
    rw [hpk, pkOps]
    simp [pkChanged_self]
  have hio := unchanged_indexOps p.indexList hidx
  constructor
  · simp only [tableUpdateOps]
    rw [hpkops, hio]
    simpa using hl
  · intro op hop
    simp only [tableUpdateOps] at hop
    rw [hpkops, hio] at hop
    simp only [List.append_nil] at hop
    exact hall op hop

/-- C4, witness: `unchanged_table_amended` applied to
`paramUnchanged`. -/
theorem unchanged_table_amended_witness :
    ((∀ c ∈ paramUnchanged.columnList, c.oldColumn = some c.column ∧ c.deleted = false)
      ∧ (∀ ix ∈ paramUnchanged.indexList, ix.oldIndex = some ix.index ∧ ix.deleted = false))
    ∧ ((tableUpdateOps paramUnchanged).length = paramUnchanged.columnList.length ∧
        (∀ op ∈ tableUpdateOps paramUnchanged, ∃ o n, op = DdlOp.columnUpdate o n)) :=
  ⟨⟨by decide, by decide⟩, unchanged_table_amended paramUnchanged (by decide) (by decide)⟩

/-! ## Theorems: result projector -/

/-- C6, counterexample.  A row entry whose value is nil is skipped by
the `continue` before the unknown-column check, so a nil-valued entry
under a name that is not among the requested columns stays in the row:
the claim's "every key ... not in the requested column list is removed"
fails. -/
theorem unknown_column_cex :
    projectRow ["a"] [("ghost", GoValue.vNull)] = [("ghost", GoValue.vNull)]
    ∧ (["a"].map lowStr).contains (lowStr "ghost") = false := by
  exact ⟨by decide, by decide⟩

theorem projectLoop_cons (names : List String) (n : String) (v : GoValue)
    (rest : List (String × GoValue)) :
    projectLoop names ((n, v) :: rest) =
      if v = GoValue.vNull then (n, v) :: projectLoop names rest
      else if names.contains (lowStr n) then (n, normalizeValue v) :: projectLoop names rest
      else projectLoop names rest := by
  rw [projectLoop]
  by_cases hv : v = GoValue.vNull
  · rw [if_pos hv, if_pos hv]
  · rw [if_neg hv, if_neg hv]
    rcases hc : names.contains (lowStr n) <;> rfl

/-- C6, amended.  Every row entry with a non-null value whose
lowercased key is not among the lowercased requested column names is
removed; null-valued entries are kept untouched; every remaining value
is normalized: a zero time becomes null, a non-zero time its numeric
millisecond timestamp, a floating-point value its fixed `%f` string,
and a 64-bit integer its decimal string. -/
theorem tabledata_projection_amended :
    (∀ (names : List String) (row : List (String × GoValue)),
      projectRow names row = row.filterMap (projectEntrySpec names))
    ∧ (∀ m : Int, normalizeValue (GoValue.vTime true m) = GoValue.vNull)
    ∧ (∀ m : Int, normalizeValue (GoValue.vTime false m) = GoValue.vInt m)
    ∧ (∀ f : String, normalizeValue (GoValue.vFloat f) = GoValue.vStr f)
    ∧ (∀ i : Int, normalizeValue (GoValue.vInt i) = GoValue.vStr (toString i)) := by
  refine ⟨?_, fun m => rfl, fun m => rfl, fun f => rfl, fun i => rfl⟩
  intro names row
  rw [projectRow]
  induction row with
  | nil => rfl
  | cons e rest ih =>
    obtain ⟨n, v⟩ := e
    rw [projectLoop_cons, List.filterMap_cons]
    by_cases hv : v = GoValue.vNull
    · have h1 : projectEntrySpec names (n, v) = some (n, v) := by
        rw [projectEntrySpec, if_pos hv]
      rw [if_pos hv, h1, ih]
    · rw [if_neg hv]
      have h0 : projectEntrySpec names (n, v) =
          (if (names.map lowStr).contains (lowStr n) = true
            then some (n, normalizeValue v) else none) := by
        rw [projectEntrySpec, if_neg hv]
      rcases hc : (names.map lowStr).contains (lowStr n)
      · rw [hc] at h0
        rw [h0, ih]
        rfl
      · rw [hc] at h0
        rw [h0, ih]
        rfl

/-! ## Theorems: import task engine -/

/-- C1: `StopImportTask` does not stop.  For the registered task
`taskC1`, `StopImportTask "k"` leaves the cooperative flag `IsStop`
false and instead re-runs the worker synchronously (the source calls
`task.Start()` where `task.Stop()` was plainly intended): afterwards
the task has been through a full import run (`IsEnd` true, one row
materialized and inserted), while `ImportTask.Stop` — the method the
claim describes — would have set `IsStop` without any import work. -/
theorem stop_import_task_bug :
    ((lookupKV (stopImportTask lookupEval okFlush [] 5 9 [("k", taskC1)] "k") "k").map
        (fun t => (t.isStop, t.isEnd, t.readyDataCount, t.successCount))) =
      some (false, true, 1, 1)
    ∧ taskC1.isStop = false
    ∧ (ImportTask.stop taskC1).isStop = true
    ∧ (ImportTask.stop taskC1).readyDataCount = 0 := by
  exact ⟨by decide, by decide, by decide, by decide⟩

/-- C9: the deferred epilogue of `Start` always runs.  Whatever the
strategy body does, the terminal state has the ended flag set, the end
time and the elapsed time recorded, and the `Error` field equal to the
recovered panic text when the body failed and untouched otherwise: a
terminated task is never left without either a normal completion or a
populated error. -/
theorem start_recovers_and_ends (eval : EvalFn) (flush : FlushFn) (baseCtx : JsEnv)
    (t0 t1 : Int) (st : ImportTask) :
    (start eval flush baseCtx t0 t1 st).1.isEnd = true
    ∧ (start eval flush baseCtx t0 t1 st).1.endTime = t1
    ∧ (start eval flush baseCtx t0 t1 st).1.useTime = t1 - t0
    ∧ (start eval flush baseCtx t0 t1 st).1.error =
        (match (startBody eval flush baseCtx { st with startTime := t0 }).2.2 with
          | .error e => e
          | .ok _ => (startBody eval flush baseCtx { st with startTime := t0 }).1.error) := by
  rw [start]
  rcases hb : (startBody eval flush baseCtx { st with startTime := t0 }).2.2 with e | u <;>
    exact ⟨rfl, rfl, rfl, rfl⟩

/-- C5, counterexample.  The source creates one goja VM per strategy
entry and reuses its scope for every generated row, so a column
variable set while generating row 0 is still visible while generating
row 1.  With the legitimate engine behaviour `lookupEval` (an
expression is a variable reference, absent means null) and the
strategy `strategyTwoRows`, row 1's column `c1` evaluates to row 0's
`c2` value (0) in the source, whereas under the claimed fresh-per-row
scope it would be null: the produced batches differ. -/
theorem fresh_scope_cex :
    (doStrategyData lookupEval okFlush [] freshTask colsC1C2 strategyTwoRows).2.1 =
      [[[("c1", JsValue.vNull), ("c2", JsValue.vNum 0)],
        [("c1", JsValue.vNum 0), ("c2", JsValue.vNum 1)]]]
    ∧ (doStrategyDataFresh lookupEval okFlush [] freshTask colsC1C2 strategyTwoRows).2.1 =
      [[[("c1", JsValue.vNull), ("c2", JsValue.vNum 0)],
        [("c1", JsValue.vNull), ("c2", JsValue.vNum 1)]]]
    ∧ (doStrategyData lookupEval okFlush [] freshTask colsC1C2 strategyTwoRows).2.1 ≠
      (doStrategyDataFresh lookupEval okFlush [] freshTask colsC1C2 strategyTwoRows).2.1 := by
  exact ⟨by decide, by decide, by decide⟩

theorem rowLoop_ne_stopped (eval : EvalFn) (importData : JsRow) :
    ∀ (cols : List TableColumnModel) (env : JsEnv) (data : JsRow),
      rowLoop eval false importData cols env data ≠ .stopped := by
  intro cols
  induction cols with
  | nil =>
    intro env data h
    simp [rowLoop] at h
  | cons c rest ih =>
    intro env data h
    rw [rowLoop, if_neg Bool.false_ne_true] at h
    split at h
    · exact ih _ _ h
    · split at h
      · split at h
        · split at h
          · simp at h
          · exact ih _ _ h
        · exact ih _ _ h
      · exact ih _ _ h

/-- When the per-index loop of a non-stopped task returns without an
error it has materialized exactly one row per remaining index. -/
theorem dataLoop_ok_ready (eval : EvalFn) (flush : FlushFn) (importData : JsRow)
    (cols : List TableColumnModel) (bn : Int) :
    ∀ (k : Nat) (i : Int) (env : JsEnv) (dl : List JsRow) (st : ImportTask),
      (dataLoop eval flush false importData cols bn k i env dl st).2.2 = .ok () →
      (dataLoop eval flush false importData cols bn k i env dl st).1.readyDataCount =
        st.readyDataCount + k := by
  intro k
  induction k with
  | zero =>
    intro i env dl st
    rw [dataLoop]
    split
    next tr e heq => intro h; simp at h
    next tr u heq => intro h; simp
  | succ k ih =>
    intro i env dl st
    rw [dataLoop]
    split
    next heq =>
      intro h
      exact absurd heq (rowLoop_ne_stopped eval importData cols _ _)
    next e heq => intro h; simp at h
    next env2 data heq =>
      by_cases hlen : bn ≤ ((dl ++ [data]).length : Int)
      · rw [if_pos hlen, if_neg Bool.false_ne_true]
        split
        next tr e heq2 => intro h; simp at h
        next tr u heq2 =>
          intro h
          simp only at h ⊢
          rw [ih _ _ _ _ h]
          simp
          omega
      · rw [if_neg hlen]
        intro h
        rw [ih _ _ _ _ h]
        simp
        omega

/-- When every batched insert succeeds, an error of the per-index loop
can only be an expression-evaluation error, which occurs before the
failing row is counted: fewer rows than requested are materialized. -/
theorem dataLoop_err_ready (eval : EvalFn) (flush : FlushFn) (importData : JsRow)
    (cols : List TableColumnModel) (bn : Int) (hfl : ∀ l, flush l = .ok ()) :
    ∀ (k : Nat) (i : Int) (env : JsEnv) (dl : List JsRow) (st : ImportTask) (e : String),
      (dataLoop eval flush false importData cols bn k i env dl st).2.2 = .error e →
      (dataLoop eval flush false importData cols bn k i env dl st).1.readyDataCount <
        st.readyDataCount + k := by
  intro k
  induction k with
  | zero =>
    intro i env dl st e
    rw [dataLoop]
    split
    next tr e2 heq =>
      intro h
      exfalso
      rw [doImportData] at heq
      split at heq
      · simp at heq
      · rw [hfl dl] at heq
        simp at heq
    next tr u heq => intro h; simp at h
  | succ k ih =>
    intro i env dl st e
    rw [dataLoop]
    split
    next heq => intro h; simp at h
    next e2 heq =>
      intro _
      simp only
      omega
    next env2 data heq =>
      by_cases hlen : bn ≤ ((dl ++ [data]).length : Int)
      · rw [if_pos hlen, if_neg Bool.false_ne_true]
        split
        next tr e2 heq2 =>
          intro h
          exfalso
          rw [doImportData] at heq2
          split at heq2
          · simp at heq2
          · rw [hfl (dl ++ [data])] at heq2
            simp at heq2
        next tr u heq2 =>
          intro h
          simp only at h ⊢
          have hlt := ih (i + 1) env2 [] _ e h
          simp only at hlt
          omega
      · rw [if_neg hlen]
        intro h
        have hlt := ih (i + 1) env2 (dl ++ [data]) _ e h
        simp only at hlt
        omega

/-- C5, amended.  For a strategy entry with requested count N > 0 of a
task that is not stopped, the engine generates one row per index in
[0, N): on success `ReadyDataCount` grows by exactly N, and when the
engine fails although every batched insert succeeds (so the failure is
an expression-evaluation error), `ReadyDataCount` grows by less than N
and the error is the task's terminal error after `Start`.  The single
scripting scope is created once per strategy entry (not per row): the
index variable is re-set in the shared scope before each row, and
column values of earlier rows stay visible until overwritten (see the
counterexample for an observable consequence); within one row, columns
computed earlier are visible to later expressions of the same row. -/
theorem strategy_rows_amended :
    (∀ (eval : EvalFn) (flush : FlushFn) (baseCtx : JsEnv) (st : ImportTask)
        (cols : List TableColumnModel) (d : JsRow),
      st.isStop = false → 0 < importCountOf d →
      (doStrategyData eval flush baseCtx st cols d).2.2 = .ok () →
      (doStrategyData eval flush baseCtx st cols d).1.readyDataCount =
        st.readyDataCount + importCountOf d)
    ∧ (∀ (eval : EvalFn) (flush : FlushFn) (baseCtx : JsEnv) (st : ImportTask)
        (cols : List TableColumnModel) (d : JsRow) (e : String),
      st.isStop = false → (∀ l, flush l = .ok ()) →
      (doStrategyData eval flush baseCtx st cols d).2.2 = .error e →
      (doStrategyData eval flush baseCtx st cols d).1.readyDataCount <
        st.readyDataCount + importCountOf d)
    ∧ (∀ (eval : EvalFn) (flush : FlushFn) (baseCtx : JsEnv) (t0 t1 : Int)
        (st : ImportTask) (e : String),
      (startBody eval flush baseCtx { st with startTime := t0 }).2.2 = .error e →
      (start eval flush baseCtx t0 t1 st).1.error = e) := by
  refine ⟨?_, ?_, ?_⟩
  · intro eval flush baseCtx st cols d hstop hcount h
    rw [doStrategyData, if_neg (not_le.mpr hcount), hstop, if_neg Bool.false_ne_true] at h ⊢
    rw [dataLoop_ok_ready eval flush d cols _ _ _ _ _ _ h,
      Int.toNat_of_nonneg (le_of_lt hcount)]
  · intro eval flush baseCtx st cols d e hstop hfl h
    by_cases hc : importCountOf d ≤ 0
    · rw [doStrategyData, if_pos hc] at h
      simp at h
    · rw [doStrategyData, if_neg hc, hstop, if_neg Bool.false_ne_true] at h ⊢
      have hlt := dataLoop_err_ready eval flush d cols _ hfl _ _ _ _ _ _ h
      rwa [Int.toNat_of_nonneg (by omega)] at hlt
  · intro eval flush baseCtx t0 t1 st e h
    rw [start]
    rcases hb : (startBody eval flush baseCtx { st with startTime := t0 }).2.2 with e2 | u
    · rw [hb] at h
      injection h with h2
    · rw [hb] at h
      simp at h

/-- C5, witness: the three parts of `strategy_rows_amended` applied to
the two-row strategy (success, 2 rows materialized), the five-row
strategy failing on row index 3 (fewer than 5 rows materialized), and
the failing task run through `Start` (terminal error set). -/
theorem strategy_rows_amended_witness :
    (freshTask.isStop = false ∧ 0 < importCountOf strategyTwoRows ∧
      (doStrategyData lookupEval okFlush [] freshTask colsC1C2 strategyTwoRows).2.2 = .ok () ∧
      (doStrategyData lookupEval okFlush [] freshTask colsC1C2
          strategyTwoRows).1.readyDataCount =
        freshTask.readyDataCount + importCountOf strategyTwoRows)
    ∧ ((doStrategyData failAt3Eval okFlush [] freshTask colsC1C2 strategyFiveRows).2.2 =
        .error "script error on row 3" ∧
      (doStrategyData failAt3Eval okFlush [] freshTask colsC1C2
          strategyFiveRows).1.readyDataCount <
        freshTask.readyDataCount + importCountOf strategyFiveRows)
    ∧ ((startBody failAt3Eval okFlush [] { taskErr with startTime := 5 }).2.2 =
        .error "script error on row 3" ∧
      (start failAt3Eval okFlush [] 5 9 taskErr).1.error = "script error on row 3") :=
  ⟨⟨by decide, by decide, by rfl,
      strategy_rows_amended.1 lookupEval okFlush [] freshTask colsC1C2 strategyTwoRows
        (by decide) (by decide) (by rfl)⟩,
    ⟨by rfl,
      strategy_rows_amended.2.1 failAt3Eval okFlush [] freshTask colsC1C2 strategyFiveRows
        "script error on row 3" (by decide) (fun l => rfl) (by rfl)⟩,
    ⟨by rfl,
      strategy_rows_amended.2.2 failAt3Eval okFlush [] 5 9 taskErr "script error on row 3"
        (by rfl)⟩⟩

end Teamide
